import Mathlib

/-!
Shallow embedding of the city rideshare trip analyzer (src/analyzer.cpp).

Bytes are modelled as `Nat` (the C++ code works on `std::string_view` over
raw bytes), lines as `List Nat`, and a CSV file as a `List (List Nat)` of
its lines wrapped in `Option` (`none` models a missing or unopenable file).
`std::unordered_map` contents are modelled as association lists: the hash
map's iteration order is unspecified in C++, and every ranked query sorts
with a strict total order before truncating, so the association-list model
determines the same observable outputs.  C++ `long long` counters are
modelled as `Nat`: counts only ever grow by one per accepted row.
`std::partial_sort` with a strict total comparator places the first
`min(k, n)` elements of the full sorted order at the front; it is modelled
by a full sort followed by `take`.
-/

namespace RideShare

/-- Bytes of an ASCII string literal, for concrete test inputs. -/
def bytes (s : String) : List Nat := s.data.map Char.toNat

/-- C `isdigit` on a byte (analyzer.cpp validates TripID and hour digits with it). -/
def isDigit (c : Nat) : Bool := 48 ≤ c && c ≤ 57

/-- C `isspace` in the default locale: space, \t, \n, \v, \f, \r. -/
def isSpace (c : Nat) : Bool := c == 32 || (9 ≤ c && c ≤ 13)

/-- `trim` from analyzer.cpp: strip leading and trailing whitespace. -/
def trim (s : List Nat) : List Nat :=
  ((s.dropWhile isSpace).reverse.dropWhile isSpace).reverse

/-- Index of the first occurrence of byte `t`, as in `string_view::find(t)`. -/
def findChar (t : Nat) : List Nat → Option Nat
  | [] => none
  | c :: rest => if c = t then some 0 else (findChar t rest).map (· + 1)

/-- `string_view::find(t, start)`: first occurrence at index `≥ start`. -/
def findCharFrom (t : Nat) (row : List Nat) (start : Nat) : Option Nat :=
  (findChar t (row.drop start)).map (· + start)

/-- The final value of `start` after the backward digit scan in `extractHour`
(analyzer.cpp lines 35-50).  The C++ loop runs at most two iterations because
`digitCount >= 2` breaks, so it unrolls to this case split:
* byte before the colon is not a digit: the loop body never runs and the
  post-loop adjustment moves `start` forward to `colon`;
* it is a digit and the colon is at index 1: the loop breaks at `start = 0`;
* it is a digit and the byte two before the colon is also a digit:
  `digitCount` reaches 2 and the loop breaks at `start = colon - 2`;
* otherwise the loop exits on the non-digit and the adjustment restores
  `start = colon - 1`. -/
def hourScanStart (dt : List Nat) (colon : Nat) : Nat :=
  if isDigit (dt.getD (colon - 1) 0) then
    if colon - 1 = 0 then 0
    else if isDigit (dt.getD (colon - 2) 0) then colon - 2
    else colon - 1
  else colon

/-- The digit-parsing loop of `extractHour`: `h = h * 10 + (dt[i] - '0')`. -/
def parseDigits : Nat → List Nat → Nat
  | h, [] => h
  | h, c :: rest => parseDigits (h * 10 + (c - 48)) rest

/-- `extractHour` from analyzer.cpp: find the first colon, read the (at most
two) digits immediately before it, and range-check the result against
`[0, 23]`; `-1` signals rejection.  The parsed value is a `Nat`, so the
C++ guard `h >= 0 && h <= 23` reduces to `h ≤ 23`. -/
def extractHour (dt : List Nat) : Int :=
  match findChar 58 dt with
  | none => -1
  | some colon =>
    if colon = 0 then -1
    else
      let start := hourScanStart dt colon
      if colon ≤ start then -1
      else
        let h := parseDigits 0 ((dt.drop start).take (colon - start))
        if h ≤ 23 then (h : Int) else -1

/-- One iteration of the ingest loop of `TripAnalyzer::ingestFile`
(analyzer.cpp lines 109-173), minus the aggregation: locate five commas,
validate the all-digit TripID, the trimmed non-empty pickup zone, the
trimmed non-empty dropoff field, and the timestamp's hour, and return the
trimmed zone key with the hour, or `none` when the row is skipped. -/
def parseLine (row : List Nat) : Option (List Nat × Nat) :=
  match findCharFrom 44 row 0 with
  | none => none
  | some comma1 =>
    if (row.take comma1).all isDigit then
      match findCharFrom 44 row (comma1 + 1) with
      | none => none
      | some comma2 =>
        let zoneId := trim ((row.drop (comma1 + 1)).take (comma2 - comma1 - 1))
        if zoneId.isEmpty then none
        else
          match findCharFrom 44 row (comma2 + 1) with
          | none => none
          | some comma3 =>
            let dropoff := (row.drop (comma2 + 1)).take (comma3 - comma2 - 1)
            if (trim dropoff).isEmpty then none
            else
              match findCharFrom 44 row (comma3 + 1) with
              | none => none
              | some comma4 =>
                let timeView := trim ((row.drop (comma3 + 1)).take (comma4 - comma3 - 1))
                if timeView.isEmpty then none
                else
                  let hour := extractHour timeView
                  if hour = -1 then none
                  else
                    match findCharFrom 44 row (comma4 + 1) with
                    | none => none
                    | some _comma5 => some (zoneId, hour.toNat)
    else none

/-- The two aggregation maps of `TripAnalyzer`, as association lists. -/
structure AnalyzerState where
  zoneCountMap : List (List Nat × Nat)
  slotCountMap : List (List Nat × List Nat)
deriving DecidableEq, Repr

/-- A default-constructed `TripAnalyzer`: both maps empty. -/
def emptyState : AnalyzerState := ⟨[], []⟩

/-- `zoneCountMap[keyBuffer]++`: increment the entry, default-inserting 0. -/
def bumpZone : List (List Nat × Nat) → List Nat → List (List Nat × Nat)
  | [], key => [(key, 1)]
  | (k, v) :: rest, key =>
    if k = key then (k, v + 1) :: rest else (k, v) :: bumpZone rest key

/-- `slotCountMap[keyBuffer]` then `if (hours.empty()) hours.resize(24, 0);
hours[hour]++`: a fresh entry gets a dense 24-slot vector. -/
def bumpSlot : List (List Nat × List Nat) → List Nat → Nat → List (List Nat × List Nat)
  | [], key, hour =>
    let v := if ([] : List Nat).isEmpty then List.replicate 24 0 else []
    [(key, v.set hour (v.getD hour 0 + 1))]
  | (k, v) :: rest, key, hour =>
    if k = key then
      let v' := if v.isEmpty then List.replicate 24 0 else v
      (k, v'.set hour (v'.getD hour 0 + 1)) :: rest
    else (k, v) :: bumpSlot rest key hour

/-- One `while (getline(...))` iteration: skip empty lines, parse, aggregate. -/
def processLine (st : AnalyzerState) (line : List Nat) : AnalyzerState :=
  if line.isEmpty then st
  else
    match parseLine line with
    | none => st
    | some (zone, hour) =>
      { zoneCountMap := bumpZone st.zoneCountMap zone
        slotCountMap := bumpSlot st.slotCountMap zone hour }

/-- `TripAnalyzer::ingestFile`: an unopenable file (`none`) and a file whose
very first `getline` fails (no header line) both return early, leaving the
state untouched; otherwise the header is skipped and each remaining line is
processed in order.  Note the maps are never cleared. -/
def ingestFile (st : AnalyzerState) (file : Option (List (List Nat))) : AnalyzerState :=
  match file with
  | none => st
  | some [] => st
  | some (_header :: rows) => rows.foldl processLine st

/-- Result record of `topZones` (struct ZoneCount in analyzer.h). -/
structure ZoneCount where
  zone : List Nat
  count : Nat
deriving DecidableEq, Repr

/-- Result record of `topBusySlots` (struct SlotCount in analyzer.h). -/
structure SlotCount where
  zone : List Nat
  hour : Nat
  count : Nat
deriving DecidableEq, Repr

/-- Non-strict version of the `topZones` comparator: count descending,
ties broken by zone key ascending in lexicographic byte order. -/
def zoneLe (a b : ZoneCount) : Prop :=
  b.count < a.count ∨ (a.count = b.count ∧ a.zone ≤ b.zone)

instance : DecidableRel zoneLe := fun a b => by
  unfold zoneLe; exact inferInstance

instance : IsTotal ZoneCount zoneLe where
  total a b := by
    rcases lt_trichotomy a.count b.count with h | h | h
    · exact Or.inr (Or.inl h)
    · rcases le_total a.zone b.zone with hz | hz
      · exact Or.inl (Or.inr ⟨h, hz⟩)
      · exact Or.inr (Or.inr ⟨h.symm, hz⟩)
    · exact Or.inl (Or.inl h)

instance : IsTrans ZoneCount zoneLe where
  trans a b c hab hbc := by
    rcases hab with h1 | ⟨h1, hz1⟩ <;> rcases hbc with h2 | ⟨h2, hz2⟩
    · exact Or.inl (h2.trans h1)
    · exact Or.inl (h2 ▸ h1)
    · exact Or.inl (h1 ▸ h2)
    · exact Or.inr ⟨h1.trans h2, hz1.trans hz2⟩

/-- Non-strict version of the `topBusySlots` comparator: count descending,
then zone ascending, then hour ascending. -/
def slotLe (a b : SlotCount) : Prop :=
  b.count < a.count ∨
    (a.count = b.count ∧ (a.zone < b.zone ∨ (a.zone = b.zone ∧ a.hour ≤ b.hour)))

instance : DecidableRel slotLe := fun a b => by
  unfold slotLe; exact inferInstance

instance : IsTotal SlotCount slotLe where
  total a b := by
    rcases lt_trichotomy a.count b.count with h | h | h
    · exact Or.inr (Or.inl h)
    · rcases lt_trichotomy a.zone b.zone with hz | hz | hz
      · exact Or.inl (Or.inr ⟨h, Or.inl hz⟩)
      · rcases le_total a.hour b.hour with hh | hh
        · exact Or.inl (Or.inr ⟨h, Or.inr ⟨hz, hh⟩⟩)
        · exact Or.inr (Or.inr ⟨h.symm, Or.inr ⟨hz.symm, hh⟩⟩)
      · exact Or.inr (Or.inr ⟨h.symm, Or.inl hz⟩)
    · exact Or.inl (Or.inl h)

instance : IsTrans SlotCount slotLe where
  trans a b c hab hbc := by
    rcases hab with h1 | ⟨h1, hz1⟩ <;> rcases hbc with h2 | ⟨h2, hz2⟩
    · exact Or.inl (h2.trans h1)
    · exact Or.inl (h2 ▸ h1)
    · exact Or.inl (h1 ▸ h2)
    · refine Or.inr ⟨h1.trans h2, ?_⟩
      rcases hz1 with hz1 | ⟨hz1, hh1⟩ <;> rcases hz2 with hz2 | ⟨hz2, hh2⟩
      · exact Or.inl (hz1.trans hz2)
      · exact Or.inl (hz2 ▸ hz1)
      · exact Or.inl (hz1 ▸ hz2)
      · exact Or.inr ⟨hz1.trans hz2, hh1.trans hh2⟩

/-- `TripAnalyzer::topZones`: flatten the zone map, bail out on `k < 0` or an
empty source, otherwise rank with the comparator and keep the first
`min(k, |source|)` entries. -/
def topZones (st : AnalyzerState) (k : Int) : List ZoneCount :=
  let results := st.zoneCountMap.map fun p => ZoneCount.mk p.1 p.2
  if k < 0 ∨ results.isEmpty then []
  else
    let topK := min k.toNat results.length
    (List.insertionSort zoneLe results).take topK

/-- The flattening loop of `TripAnalyzer::topBusySlots`: every in-bounds,
strictly positive slot of each zone's dense hour vector, hours in 0..23. -/
def slotEntries (st : AnalyzerState) : List SlotCount :=
  st.slotCountMap.flatMap fun p =>
    (List.range 24).filterMap fun h =>
      if h < p.2.length ∧ 0 < p.2.getD h 0 then some (SlotCount.mk p.1 h (p.2.getD h 0))
      else none

/-- `TripAnalyzer::topBusySlots`: flatten to non-zero slots, bail out on
`k ≤ 0` or an empty source, rank and truncate to `min(k, |source|)`. -/
def topBusySlots (st : AnalyzerState) (k : Int) : List SlotCount :=
  let results := slotEntries st
  if k ≤ 0 ∨ results.isEmpty then []
  else
    let topK := min k.toNat results.length
    (List.insertionSort slotLe results).take topK

/-- The total recorded for zone `z` in a zone map (0 when absent). -/
def zoneTotal : List (List Nat × Nat) → List Nat → Nat
  | [], _ => 0
  | (k, v) :: rest, z => if k = z then v else zoneTotal rest z

/-- The zone a line contributes to, if the line is non-empty and accepted. -/
def rowZone (line : List Nat) : Option (List Nat) :=
  if line.isEmpty then none else (parseLine line).map Prod.fst

/-- A CSV file whose single data row records a trip in zone A at hour 10. -/
def fileA : List (List Nat) :=
  [bytes "TripID,PickupZoneID,DropoffZoneID,PickupDateTime,DistanceKm,FareAmount",
   bytes "1,A,B,2024-01-01 10:00,1.0,5.0"]

/-- A CSV file whose single data row records a trip in zone C at hour 11. -/
def fileB : List (List Nat) :=
  [bytes "TripID,PickupZoneID,DropoffZoneID,PickupDateTime,DistanceKm,FareAmount",
   bytes "2,C,D,2024-01-01 11:00,1.0,5.0"]

/-- One zone-map entry and one slot-map entry describing the same zone
consistently: same key, zone total equal to the sum of the 24 slot counts,
total at least 1, dense vector of length 24. -/
def ZoneSlotAligned (zp : List Nat × Nat) (sp : List Nat × List Nat) : Prop :=
  zp.1 = sp.1 ∧ zp.2 = sp.2.sum ∧ 1 ≤ zp.2 ∧ sp.2.length = 24

/-- The two maps of the analyzer list the same zones in the same order,
each pair of entries aligned. -/
def MapsAligned (st : AnalyzerState) : Prop :=
  List.Forall₂ ZoneSlotAligned st.zoneCountMap st.slotCountMap

/-- A data line assembled from its first four fields and the remainder after
the fourth comma. -/
def mkLine (id z d t rest : List Nat) : List Nat :=
  id ++ 44 :: (z ++ 44 :: (d ++ 44 :: (t ++ 44 :: rest)))

/-! ### Ranked-query properties -/

theorem sorted_take {α : Type} {r : α → α → Prop} {l : List α} (h : List.Sorted r l)
    (n : Nat) : List.Sorted r (l.take n) :=
  List.Pairwise.sublist (List.take_sublist n l) h

/-- C1: for k ≥ 0, `topZones` returns exactly `min(k, distinct zone count)`
entries sorted by count descending with ties broken by zone key ascending in
byte-lexicographic order; for k < 0 and for the empty state it returns the
empty sequence. -/
theorem topZones_selection (st : AnalyzerState) (k : Int) :
    (0 ≤ k →
      (topZones st k).length = min k.toNat st.zoneCountMap.length ∧
        List.Sorted zoneLe (topZones st k)) ∧
    (k < 0 → topZones st k = []) ∧
    (st.zoneCountMap = [] → topZones st k = []) := by
  refine ⟨fun hk => ?_, fun hk => ?_, fun hk => ?_⟩
  · rw [topZones]
    by_cases hemp : st.zoneCountMap = []
    · simp [hemp]
    · rw [if_neg]
      · constructor
        · rw [List.length_take, List.length_insertionSort, List.length_map]
          omega
        · exact sorted_take (List.sorted_insertionSort zoneLe _) _
      · rintro (hneg | hmt)
        · omega
        · rw [List.isEmpty_iff, List.map_eq_nil_iff] at hmt
          exact hemp hmt
  · rw [topZones, if_pos (Or.inl hk)]
  · rw [topZones, if_pos]
    right
    simp [hk]

theorem topZones_selection_witness :
    (topZones ⟨[(bytes "B", 1), (bytes "A", 1)], []⟩ 10).length =
        min (Int.toNat 10) ([(bytes "B", 1), (bytes "A", 1)] : List (List Nat × Nat)).length ∧
      List.Sorted zoneLe (topZones ⟨[(bytes "B", 1), (bytes "A", 1)], []⟩ 10) :=
  (topZones_selection ⟨[(bytes "B", 1), (bytes "A", 1)], []⟩ 10).1 (by decide)

/-- Membership in the flattened slot list: exactly the in-bounds slots of the
dense per-zone hour vectors that hold a strictly positive count. -/
theorem mem_slotEntries (st : AnalyzerState) (z : List Nat) (h c : Nat) :
    SlotCount.mk z h c ∈ slotEntries st ↔
      ∃ hrs, (z, hrs) ∈ st.slotCountMap ∧ h < 24 ∧ h < hrs.length ∧
        hrs.getD h 0 = c ∧ 0 < c := by
  constructor
  · intro hm
    rcases List.mem_flatMap.1 hm with ⟨p, hp, hmem⟩
    rcases List.mem_filterMap.1 hmem with ⟨h', hh', heq⟩
    by_cases hcond : h' < p.2.length ∧ 0 < p.2.getD h' 0
    · rw [if_pos hcond, Option.some_inj] at heq
      cases heq
      exact ⟨p.2, by cases p; exact hp, List.mem_range.1 hh', hcond.1, rfl, hcond.2⟩
    · rw [if_neg hcond] at heq
      exact Option.noConfusion heq
  · rintro ⟨hrs, hmem, h24, hlen, hcnt, hpos⟩
    refine List.mem_flatMap.2 ⟨(z, hrs), hmem, List.mem_filterMap.2 ⟨h, List.mem_range.2 h24, ?_⟩⟩
    rw [if_pos ⟨hlen, hcnt ▸ hpos⟩, hcnt]

/-- C2: `topBusySlots` draws from exactly the (zone, hour) slots with a
strictly positive count (zero slots of the dense 24-entry vectors filtered
out), returns `min(k, #such entries)` entries for k > 0 sorted by count
descending, then zone ascending, then hour ascending, and returns the empty
sequence for every k ≤ 0. -/
theorem topBusySlots_selection (st : AnalyzerState) (k : Int) :
    (k ≤ 0 → topBusySlots st k = []) ∧
    (0 < k →
      (topBusySlots st k).length = min k.toNat (slotEntries st).length ∧
        List.Sorted slotLe (topBusySlots st k) ∧
        ∀ e ∈ topBusySlots st k, e ∈ slotEntries st) ∧
    (∀ z h c, SlotCount.mk z h c ∈ slotEntries st ↔
      ∃ hrs, (z, hrs) ∈ st.slotCountMap ∧ h < 24 ∧ h < hrs.length ∧
        hrs.getD h 0 = c ∧ 0 < c) := by
  refine ⟨fun hk => ?_, fun hk => ?_, mem_slotEntries st⟩
  · rw [topBusySlots, if_pos (Or.inl hk)]
  · rw [topBusySlots]
    by_cases hemp : slotEntries st = []
    · simp [hemp]
    · rw [if_neg]
      · refine ⟨?_, ?_, ?_⟩
        · rw [List.length_take, List.length_insertionSort]
          omega
        · exact sorted_take (List.sorted_insertionSort slotLe _) _
        · intro e he
          have := List.take_sublist (min k.toNat (slotEntries st).length)
            (List.insertionSort slotLe (slotEntries st))
          exact (List.mem_insertionSort slotLe).1 (this.mem he)
      · rintro (hneg | hmt)
        · omega
        · exact hemp (List.isEmpty_iff.1 hmt)

theorem topBusySlots_selection_witness :
    (topBusySlots ⟨[], [(bytes "A", (List.replicate 24 0).set 10 1)]⟩ 10).length =
        min (Int.toNat 10)
          (slotEntries ⟨[], [(bytes "A", (List.replicate 24 0).set 10 1)]⟩).length ∧
      List.Sorted slotLe (topBusySlots ⟨[], [(bytes "A", (List.replicate 24 0).set 10 1)]⟩ 10) ∧
      ∀ e ∈ topBusySlots ⟨[], [(bytes "A", (List.replicate 24 0).set 10 1)]⟩ 10,
        e ∈ slotEntries ⟨[], [(bytes "A", (List.replicate 24 0).set 10 1)]⟩ :=
  (topBusySlots_selection ⟨[], [(bytes "A", (List.replicate 24 0).set 10 1)]⟩ 10).2.1 (by decide)

/-- C8: a missing or unopenable file (`none`) leaves the analyzer state
untouched, with no failure surfacing; on a fresh analyzer the state is
therefore empty and both ranked queries return the empty sequence for
every k. -/
theorem ingest_unopenable (st : AnalyzerState) (k : Int) :
    ingestFile st none = st ∧
    ingestFile emptyState none = emptyState ∧
    topZones (ingestFile emptyState none) k = [] ∧
    topBusySlots (ingestFile emptyState none) k = [] := by
  refine ⟨rfl, rfl, ?_, ?_⟩
  · rw [topZones]
    simp [ingestFile, emptyState]
  · rw [topBusySlots]
    simp [ingestFile, emptyState, slotEntries]

/-! ### Re-running ingest (C5) -/

theorem zoneTotal_bumpZone (m : List (List Nat × Nat)) (key z : List Nat) :
    zoneTotal (bumpZone m key) z = zoneTotal m z + (if key = z then 1 else 0) := by
  induction m with
  | nil => simp [bumpZone, zoneTotal]
  | cons p rest ih =>
    obtain ⟨k, v⟩ := p
    rw [bumpZone]
    by_cases hk : k = key
    · rw [if_pos hk, zoneTotal, zoneTotal]
      subst hk
      by_cases hz : k = z
      · rw [if_pos hz, if_pos hz, if_pos hz]
      · rw [if_neg hz, if_neg hz, if_neg hz]
        omega
    · rw [if_neg hk, zoneTotal, zoneTotal]
      by_cases hz : k = z
      · rw [if_pos hz, if_pos hz, if_neg fun h => hk (hz.trans h.symm)]
        omega
      · rw [if_neg hz, if_neg hz, ih]

theorem zoneTotal_processLine (st : AnalyzerState) (line z : List Nat) :
    zoneTotal (processLine st line).zoneCountMap z =
      zoneTotal st.zoneCountMap z + (if rowZone line = some z then 1 else 0) := by
  rw [processLine, rowZone]
  by_cases he : line.isEmpty
  · simp [he]
  · rw [if_neg he, if_neg he]
    cases hp : parseLine line with
    | none => simp
    | some p =>
      obtain ⟨zone, hour⟩ := p
      rw [zoneTotal_bumpZone]
      simp

theorem zoneTotal_foldl (rows : List (List Nat)) (st : AnalyzerState) (z : List Nat) :
    zoneTotal (rows.foldl processLine st).zoneCountMap z =
      zoneTotal st.zoneCountMap z + (rows.filterMap rowZone).count z := by
  induction rows generalizing st with
  | nil => simp
  | cons r rows ih =>
    rw [List.foldl_cons, ih, zoneTotal_processLine, List.filterMap_cons]
    cases hr : rowZone r with
    | none => simp [hr]
    | some z' =>
      rw [List.count_cons]
      simp only [Option.some.injEq, beq_iff_eq]
      by_cases hz : z' = z <;> omega

/-- C5 counterexample: ingesting a second file on top of a used analyzer does
not reproduce the state a fresh analyzer reaches on that second file — the
maps are never cleared, so zone A's count from the first file survives. -/
theorem ingest_rerun_counterexample :
    ingestFile (ingestFile emptyState (some fileA)) (some fileB) ≠
        ingestFile emptyState (some fileB) ∧
      zoneTotal (ingestFile (ingestFile emptyState (some fileA))
        (some fileB)).zoneCountMap (bytes "A") = 1 := by
  constructor
  · intro h
    have := congrArg (fun st => zoneTotal st.zoneCountMap (bytes "A")) h
    revert this
    decide
  · decide

/-- C5 amended: a second `ingestFile` call accumulates on top of the prior
aggregation — every zone total after the two passes is the sum of the two
single-file totals. -/
theorem ingest_accumulates (h1 h2 : List Nat) (r1 r2 : List (List Nat)) (z : List Nat) :
    zoneTotal (ingestFile (ingestFile emptyState (some (h1 :: r1)))
        (some (h2 :: r2))).zoneCountMap z =
      zoneTotal (ingestFile emptyState (some (h1 :: r1))).zoneCountMap z +
        zoneTotal (ingestFile emptyState (some (h2 :: r2))).zoneCountMap z := by
  have e1 : ingestFile emptyState (some (h1 :: r1)) = r1.foldl processLine emptyState := rfl
  have e2 : ∀ st, ingestFile st (some (h2 :: r2)) = r2.foldl processLine st := fun _ => rfl
  rw [e2, e2, e1, zoneTotal_foldl, zoneTotal_foldl, zoneTotal_foldl]
  rw [show zoneTotal emptyState.zoneCountMap z = 0 from rfl]
  omega

/-! ### Zone/slot consistency invariant (C6) -/

theorem sum_set_succ : ∀ (v : List Nat) (h : Nat), h < v.length →
    (v.set h (v.getD h 0 + 1)).sum = v.sum + 1
  | [], h, hh => absurd hh (by simp)
  | x :: v, 0, _ => by
    rw [List.getD_cons_zero, List.set_cons_zero, List.sum_cons, List.sum_cons]
    omega
  | x :: v, h + 1, hh => by
    rw [List.getD_cons_succ, List.set_cons_succ, List.sum_cons, List.sum_cons,
      sum_set_succ v h (by simpa using hh)]
    omega

/-- Either a line is rejected (`-1`) or `extractHour` returns a value in
`[0, 23]`: the final range check of analyzer.cpp line 61. -/
theorem extractHour_range (dt : List Nat) :
    extractHour dt = -1 ∨ (0 ≤ extractHour dt ∧ extractHour dt ≤ 23) := by
  rw [extractHour]
  cases findChar 58 dt with
  | none => exact Or.inl rfl
  | some colon =>
    dsimp only
    split_ifs with h1 h2 h3
    · exact Or.inl rfl
    · exact Or.inl rfl
    · exact Or.inr ⟨Int.ofNat_nonneg _, by exact_mod_cast h3⟩
    · exact Or.inl rfl

theorem toNat_lt_of_range (e : Int) (_hne : ¬e = -1)
    (hr : e = -1 ∨ (0 ≤ e ∧ e ≤ 23)) : e.toNat < 24 := by omega

/-- Any hour an accepted row stores is a valid dense-vector index. -/
theorem parseLine_hour_lt (row z : List Nat) (h : Nat)
    (hp : parseLine row = some (z, h)) : h < 24 := by
  unfold parseLine at hp
  dsimp only at hp
  iterate 10 (split at hp <;> try exact Option.noConfusion hp)
  rw [Option.some_inj, Prod.mk.injEq] at hp
  obtain ⟨hz1, hh1⟩ := hp
  subst hh1
  exact toNat_lt_of_range _ (by assumption) (extractHour_range _)

theorem bump_aligned {zm : List (List Nat × Nat)} {sm : List (List Nat × List Nat)}
    (key : List Nat) (hour : Nat) (hh : hour < 24)
    (hal : List.Forall₂ ZoneSlotAligned zm sm) :
    List.Forall₂ ZoneSlotAligned (bumpZone zm key) (bumpSlot sm key hour) := by
  induction hal with
  | nil =>
    rw [bumpZone, bumpSlot]
    refine List.Forall₂.cons ⟨rfl, ?_, ?_, ?_⟩ List.Forall₂.nil
    · rw [show (if ([] : List Nat).isEmpty then List.replicate 24 (0 : Nat) else []) =
        List.replicate 24 0 from rfl]
      rw [sum_set_succ _ _ (by simpa using hh)]
      simp [List.sum_replicate]
    · exact le_refl 1
    · rw [show (if ([] : List Nat).isEmpty then List.replicate 24 (0 : Nat) else []) =
        List.replicate 24 0 from rfl]
      simp
  | @cons zp sp zm' sm' hps hal' ih =>
    obtain ⟨k, v⟩ := zp
    obtain ⟨k', w⟩ := sp
    obtain ⟨hk, hsum, hone, hlen⟩ := hps
    dsimp only at hk hsum hone hlen
    subst hk
    rw [bumpZone, bumpSlot]
    by_cases hkey : k = key
    · rw [if_pos hkey, if_pos hkey]
      have hwne : w.isEmpty = false := by
        rw [List.isEmpty_eq_false_iff_exists_mem]
        cases w with
        | nil => simp at hlen
        | cons a w' => exact ⟨a, List.mem_cons_self a w'⟩
      rw [show (if w.isEmpty then List.replicate 24 (0 : Nat) else w) = w by rw [hwne]; rfl]
      refine List.Forall₂.cons ⟨rfl, ?_, by omega, by simpa using hlen⟩ hal'
      rw [sum_set_succ _ _ (by omega)]
      omega
    · rw [if_neg hkey, if_neg hkey]
      exact List.Forall₂.cons ⟨rfl, hsum, hone, hlen⟩ (ih)

theorem processLine_aligned (st : AnalyzerState) (line : List Nat)
    (h : MapsAligned st) : MapsAligned (processLine st line) := by
  rw [processLine]
  by_cases he : line.isEmpty
  · rwa [if_pos he]
  · rw [if_neg he]
    cases hp : parseLine line with
    | none => exact h
    | some p =>
      obtain ⟨zone, hour⟩ := p
      exact bump_aligned zone hour (parseLine_hour_lt line zone hour hp) h

theorem foldl_aligned (rows : List (List Nat)) (st : AnalyzerState)
    (h : MapsAligned st) : MapsAligned (rows.foldl processLine st) := by
  induction rows generalizing st with
  | nil => exact h
  | cons r rows ih => exact ih _ (processLine_aligned st r h)

theorem forall₂_mem_left {α β : Type} {R : α → β → Prop} :
    ∀ {l₁ : List α} {l₂ : List β}, List.Forall₂ R l₁ l₂ → ∀ {a}, a ∈ l₁ →
      ∃ b ∈ l₂, R a b
  | _, _, List.Forall₂.cons hr hrest, a, ha => by
    rcases List.mem_cons.1 ha with rfl | ha'
    · exact ⟨_, List.mem_cons_self _ _, hr⟩
    · rcases forall₂_mem_left hrest ha' with ⟨b, hb, hab⟩
      exact ⟨b, List.mem_cons_of_mem _ hb, hab⟩

/-- C6: after any ingestion pass on a fresh analyzer, every stored zone entry
has count ≥ 1, and its count equals the sum of that zone's 24 dense slot
counts. -/
theorem zone_slot_consistent (file : Option (List (List Nat))) (z : List Nat) (c : Nat)
    (hmem : (z, c) ∈ (ingestFile emptyState file).zoneCountMap) :
    1 ≤ c ∧ ∃ hrs, (z, hrs) ∈ (ingestFile emptyState file).slotCountMap ∧
      hrs.length = 24 ∧ hrs.sum = c := by
  have hal : MapsAligned (ingestFile emptyState file) := by
    match file with
    | none => exact List.Forall₂.nil
    | some [] => exact List.Forall₂.nil
    | some (_header :: rows) => exact foldl_aligned rows emptyState List.Forall₂.nil
  rcases forall₂_mem_left hal hmem with ⟨sp, hsp, hk, hsum, hone, hlen⟩
  exact ⟨hone, sp.2, by rwa [show (z, sp.2) = sp from Prod.ext hk rfl], hlen, hsum.symm⟩

theorem zone_slot_consistent_witness :
    1 ≤ 1 ∧ ∃ hrs, (bytes "A", hrs) ∈ (ingestFile emptyState (some fileA)).slotCountMap ∧
      hrs.length = 24 ∧ hrs.sum = 1 :=
  zone_slot_consistent (some fileA) (bytes "A") 1 (by decide)

/-! ### Structure of accepted lines (C4, C7, C9) -/

theorem findChar_append_cons (x : Nat) (a b : List Nat) (ha : x ∉ a) :
    findChar x (a ++ x :: b) = some a.length := by
  induction a with
  | nil =>
    rw [List.nil_append, findChar, if_pos rfl]
    rfl
  | cons c a ih =>
    have hne : ¬(c = x) := fun h => ha (List.mem_cons.2 (Or.inl h.symm))
    have ha' : x ∉ a := fun h => ha (List.mem_cons.2 (Or.inr h))
    rw [List.cons_append, findChar, if_neg hne, ih ha']
    rfl

theorem findChar_eq_none (x : Nat) (l : List Nat) (hx : x ∉ l) : findChar x l = none := by
  induction l with
  | nil => rfl
  | cons c l ih =>
    rw [findChar, if_neg fun h => hx (List.mem_cons.2 (Or.inl h.symm)),
      ih fun h => hx (List.mem_cons.2 (Or.inr h))]
    rfl

theorem findChar_isSome (x : Nat) (l : List Nat) (hx : x ∈ l) :
    ∃ i, findChar x l = some i := by
  induction l with
  | nil => cases hx
  | cons c l ih =>
    by_cases hc : c = x
    · exact ⟨0, by rw [findChar, if_pos hc]⟩
    · rcases ih ((List.mem_cons.1 hx).resolve_left fun h => hc h.symm) with ⟨i, hi⟩
      exact ⟨i + 1, by rw [findChar, if_neg hc, hi]; rfl⟩

theorem drop_append_cons (a : List Nat) (x : Nat) (b : List Nat) :
    (a ++ x :: b).drop (a.length + 1) = b := by
  have h1 : a ++ x :: b = (a ++ [x]) ++ b := by simp
  have h2 : a.length + 1 = (a ++ [x]).length := by simp
  rw [h1, h2, List.drop_left]

/-- Full evaluation of the parser on a line with explicit field structure:
with four commas placed around the first four fields, an all-digit
identifier, a non-empty trimmed pickup zone, and at least one further comma
in the remainder, acceptance is decided by the dropoff-emptiness check and
the hour extraction alone. -/
theorem parseLine_mkLine (id z d t rest : List Nat)
    (hid : 44 ∉ id) (hz : 44 ∉ z) (hd : 44 ∉ d) (ht : 44 ∉ t)
    (hdigit : id.all isDigit = true) (hzne : (trim z).isEmpty = false)
    (hrest : 44 ∈ rest) :
    parseLine (mkLine id z d t rest) =
      if (trim d).isEmpty then none
      else if extractHour (trim t) = -1 then none
      else some (trim z, (extractHour (trim t)).toNat) := by
  have f1 : findCharFrom 44 (mkLine id z d t rest) 0 = some id.length := by
    rw [findCharFrom, List.drop_zero, mkLine, findChar_append_cons 44 id _ hid]
    rfl
  have htk1 : (mkLine id z d t rest).take id.length = id := by
    rw [mkLine]
    exact List.take_left id _
  have hdr1 : (mkLine id z d t rest).drop (id.length + 1) =
      z ++ 44 :: (d ++ 44 :: (t ++ 44 :: rest)) := by
    rw [mkLine]
    exact drop_append_cons _ _ _
  have f2 : findCharFrom 44 (mkLine id z d t rest) (id.length + 1) =
      some (z.length + (id.length + 1)) := by
    rw [findCharFrom, hdr1, findChar_append_cons 44 z _ hz]
    rfl
  have ha2 : z.length + (id.length + 1) - id.length - 1 = z.length := by omega
  have htk2 : (z ++ 44 :: (d ++ 44 :: (t ++ 44 :: rest))).take z.length = z :=
    List.take_left z _
  have hdr2 : (mkLine id z d t rest).drop (z.length + (id.length + 1) + 1) =
      d ++ 44 :: (t ++ 44 :: rest) := by
    rw [show z.length + (id.length + 1) + 1 = (id.length + 1) + (z.length + 1) from by omega,
      ← List.drop_drop, hdr1]
    exact drop_append_cons _ _ _
  have f3 : findCharFrom 44 (mkLine id z d t rest) (z.length + (id.length + 1) + 1) =
      some (d.length + (z.length + (id.length + 1) + 1)) := by
    rw [findCharFrom, hdr2, findChar_append_cons 44 d _ hd]
    rfl
  have ha3 : d.length + (z.length + (id.length + 1) + 1) - (z.length + (id.length + 1)) - 1 =
      d.length := by omega
  have htk3 : (d ++ 44 :: (t ++ 44 :: rest)).take d.length = d := List.take_left d _
  have hdr3 : (mkLine id z d t rest).drop (d.length + (z.length + (id.length + 1) + 1) + 1) =
      t ++ 44 :: rest := by
    rw [show d.length + (z.length + (id.length + 1) + 1) + 1 =
        (z.length + (id.length + 1) + 1) + (d.length + 1) from by omega,
      ← List.drop_drop, hdr2]
    exact drop_append_cons _ _ _
  have f4 : findCharFrom 44 (mkLine id z d t rest)
      (d.length + (z.length + (id.length + 1) + 1) + 1) =
      some (t.length + (d.length + (z.length + (id.length + 1) + 1) + 1)) := by
    rw [findCharFrom, hdr3, findChar_append_cons 44 t _ ht]
    rfl
  have ha4 : t.length + (d.length + (z.length + (id.length + 1) + 1) + 1) -
      (d.length + (z.length + (id.length + 1) + 1)) - 1 = t.length := by omega
  have htk4 : (t ++ 44 :: rest).take t.length = t := List.take_left t _
  have hdr4 : (mkLine id z d t rest).drop
      (t.length + (d.length + (z.length + (id.length + 1) + 1) + 1) + 1) = rest := by
    rw [show t.length + (d.length + (z.length + (id.length + 1) + 1) + 1) + 1 =
        (d.length + (z.length + (id.length + 1) + 1) + 1) + (t.length + 1) from by omega,
      ← List.drop_drop, hdr3]
    exact drop_append_cons _ _ _
  obtain ⟨i5, hf5⟩ := findChar_isSome 44 rest hrest
  have f5 : findCharFrom 44 (mkLine id z d t rest)
      (t.length + (d.length + (z.length + (id.length + 1) + 1) + 1) + 1) =
      some (i5 + (t.length + (d.length + (z.length + (id.length + 1) + 1) + 1) + 1)) := by
    rw [findCharFrom, hdr4, hf5]
    rfl
  simp only [parseLine, f1, htk1, hdigit, f2, ha2, hdr1, htk2, hzne, f3, ha3, hdr2, htk3,
    f4, ha4, hdr3, htk4, f5, hdr4, if_true, Bool.false_eq_true, if_false, ite_true, ite_false]
  by_cases htt : (trim t).isEmpty
  · have hte : trim t = [] := List.isEmpty_iff.1 htt
    have hex : extractHour (trim t) = -1 := by rw [hte]; rfl
    simp [htt, hex]
  · simp [htt]

theorem parseLine_mkLine_witness :
    parseLine (mkLine (bytes "7") (bytes "Z1") (bytes "B") (bytes "2024-01-01 10:30")
        (bytes "1.0,5.0")) =
      if (trim (bytes "B")).isEmpty then none
      else if extractHour (trim (bytes "2024-01-01 10:30")) = -1 then none
      else some (trim (bytes "Z1"),
        (extractHour (trim (bytes "2024-01-01 10:30"))).toNat) :=
  parseLine_mkLine _ _ _ _ _ (by decide) (by decide) (by decide) (by decide) (by decide)
    (by decide) (by decide)

/-- C4 counterexample: a data line with exactly the five fields the claim
lists (four commas), an all-digit identifier, non-empty zones, and a valid
hour is nevertheless rejected — the parser demands a fifth comma after the
timestamp field. -/
theorem fourCommas_rejected_counterexample :
    (bytes "1,A,B,10:00,x").count 44 = 4 ∧
      (bytes "1").all isDigit = true ∧
      (trim (bytes "A")).isEmpty = false ∧
      (trim (bytes "B")).isEmpty = false ∧
      extractHour (trim (bytes "10:00")) = 10 ∧
      parseLine (bytes "1,A,B,10:00,x") = none := by decide

/-- Any data line with exactly four commas (five comma-free fields) is
rejected, whatever the fields hold: the search for a fifth comma after the
timestamp field fails, and every other exit of the parsing loop also skips
the row. -/
theorem parseLine_mkLine_noFifthComma (id z d t last : List Nat)
    (hid : 44 ∉ id) (hz : 44 ∉ z) (hd : 44 ∉ d) (ht : 44 ∉ t) (hlast : 44 ∉ last) :
    parseLine (mkLine id z d t last) = none := by
  have f1 : findCharFrom 44 (mkLine id z d t last) 0 = some id.length := by
    rw [findCharFrom, List.drop_zero, mkLine, findChar_append_cons 44 id _ hid]
    rfl
  have hdr1 : (mkLine id z d t last).drop (id.length + 1) =
      z ++ 44 :: (d ++ 44 :: (t ++ 44 :: last)) := by
    rw [mkLine]
    exact drop_append_cons _ _ _
  have f2 : findCharFrom 44 (mkLine id z d t last) (id.length + 1) =
      some (z.length + (id.length + 1)) := by
    rw [findCharFrom, hdr1, findChar_append_cons 44 z _ hz]
    rfl
  have hdr2 : (mkLine id z d t last).drop (z.length + (id.length + 1) + 1) =
      d ++ 44 :: (t ++ 44 :: last) := by
    rw [show z.length + (id.length + 1) + 1 = (id.length + 1) + (z.length + 1) from by omega,
      ← List.drop_drop, hdr1]
    exact drop_append_cons _ _ _
  have f3 : findCharFrom 44 (mkLine id z d t last) (z.length + (id.length + 1) + 1) =
      some (d.length + (z.length + (id.length + 1) + 1)) := by
    rw [findCharFrom, hdr2, findChar_append_cons 44 d _ hd]
    rfl
  have hdr3 : (mkLine id z d t last).drop (d.length + (z.length + (id.length + 1) + 1) + 1) =
      t ++ 44 :: last := by
    rw [show d.length + (z.length + (id.length + 1) + 1) + 1 =
        (z.length + (id.length + 1) + 1) + (d.length + 1) from by omega,
      ← List.drop_drop, hdr2]
    exact drop_append_cons _ _ _
  have f4 : findCharFrom 44 (mkLine id z d t last)
      (d.length + (z.length + (id.length + 1) + 1) + 1) =
      some (t.length + (d.length + (z.length + (id.length + 1) + 1) + 1)) := by
    rw [findCharFrom, hdr3, findChar_append_cons 44 t _ ht]
    rfl
  have hdr4 : (mkLine id z d t last).drop
      (t.length + (d.length + (z.length + (id.length + 1) + 1) + 1) + 1) = last := by
    rw [show t.length + (d.length + (z.length + (id.length + 1) + 1) + 1) + 1 =
        (d.length + (z.length + (id.length + 1) + 1) + 1) + (t.length + 1) from by omega,
      ← List.drop_drop, hdr3]
    exact drop_append_cons _ _ _
  have f5 : findCharFrom 44 (mkLine id z d t last)
      (t.length + (d.length + (z.length + (id.length + 1) + 1) + 1) + 1) = none := by
    rw [findCharFrom, hdr4, findChar_eq_none 44 last hlast]
    rfl
  simp only [parseLine, f1, f2, f3, f4, f5]
  split_ifs <;> rfl

/-- C4 amended: a data line needs at least six comma-separated fields (five
commas): with an all-digit identifier, a non-empty trimmed pickup zone, a
non-empty trimmed drop-off field, a timestamp with a valid hour, and at
least one comma after the timestamp field, the line is accepted and counted
under its trimmed pickup zone and extracted hour; whereas every line with
exactly four commas — the five fields the claim lists — is rejected
regardless of its field contents, because the parser requires a fifth comma
after the timestamp field. -/
theorem fieldCount_policy (id z d t rest last : List Nat)
    (hid : 44 ∉ id) (hz : 44 ∉ z) (hd : 44 ∉ d) (ht : 44 ∉ t) (hlast : 44 ∉ last) :
    (id.all isDigit = true → (trim z).isEmpty = false → (trim d).isEmpty = false →
      ¬extractHour (trim t) = -1 → 44 ∈ rest →
      parseLine (mkLine id z d t rest) = some (trim z, (extractHour (trim t)).toNat)) ∧
    parseLine (mkLine id z d t last) = none := by
  constructor
  · intro hdigit hzne hdne hhour hrest
    rw [parseLine_mkLine id z d t rest hid hz hd ht hdigit hzne hrest,
      if_neg (by rw [hdne]; exact Bool.false_ne_true), if_neg hhour]
  · exact parseLine_mkLine_noFifthComma id z d t last hid hz hd ht hlast

theorem fieldCount_policy_witness :
    parseLine (mkLine (bytes "1") (bytes "A") (bytes "B") (bytes "10:00") (bytes "x,y")) =
        some (trim (bytes "A"), (extractHour (trim (bytes "10:00"))).toNat) ∧
      parseLine (mkLine (bytes "1") (bytes "A") (bytes "B") (bytes "10:00") (bytes "x")) =
        none :=
  ⟨(fieldCount_policy (bytes "1") (bytes "A") (bytes "B") (bytes "10:00") (bytes "x,y")
      (bytes "x") (by decide) (by decide) (by decide) (by decide) (by decide)).1
      (by decide) (by decide) (by decide) (by decide) (by decide),
    (fieldCount_policy (bytes "1") (bytes "A") (bytes "B") (bytes "10:00") (bytes "x,y")
      (bytes "x") (by decide) (by decide) (by decide) (by decide) (by decide)).2⟩

/-- C7 counterexample: two lines identical except for the drop-off field's
content — one accepted, one rejected — so acceptance does depend on that
content: a drop-off field that trims to empty rejects the row. -/
theorem dropoff_content_matters_counterexample :
    parseLine (bytes "1,A,B,10:00,x,y") = some (bytes "A", 10) ∧
      parseLine (bytes "1,A, ,10:00,x,y") = none := by decide

/-- C7 amended: acceptance depends on the drop-off field only through
whether its trimmed content is empty — an all-whitespace drop-off field
rejects the row, and any two non-empty trimmed contents are
interchangeable. -/
theorem dropoff_policy (id z d d' t rest : List Nat)
    (hid : 44 ∉ id) (hz : 44 ∉ z) (hd : 44 ∉ d) (hd' : 44 ∉ d') (ht : 44 ∉ t)
    (hdigit : id.all isDigit = true) (hzne : (trim z).isEmpty = false)
    (hrest : 44 ∈ rest) :
    ((trim d).isEmpty = true → parseLine (mkLine id z d t rest) = none) ∧
    ((trim d).isEmpty = false → (trim d').isEmpty = false →
      parseLine (mkLine id z d t rest) = parseLine (mkLine id z d' t rest)) := by
  constructor
  · intro hde
    rw [parseLine_mkLine id z d t rest hid hz hd ht hdigit hzne hrest, if_pos hde]
  · intro hde hde'
    rw [parseLine_mkLine id z d t rest hid hz hd ht hdigit hzne hrest,
      parseLine_mkLine id z d' t rest hid hz hd' ht hdigit hzne hrest, hde, hde']

theorem dropoff_policy_witness :
    parseLine (mkLine (bytes "1") (bytes "A") (bytes "B") (bytes "10:00") (bytes "x,y")) =
      parseLine (mkLine (bytes "1") (bytes "A") (bytes "ELSEWHERE") (bytes "10:00")
        (bytes "x,y")) :=
  (dropoff_policy (bytes "1") (bytes "A") (bytes "B") (bytes "ELSEWHERE") (bytes "10:00")
      (bytes "x,y") (by decide) (by decide) (by decide) (by decide) (by decide) (by decide)
      (by decide) (by decide)).2 (by decide) (by decide)

/-- C9: a line beginning with a comma has an empty identifier field, the
all-digit check passes vacuously, and the row is accepted whenever the zone,
drop-off, timestamp, and trailing-field checks pass. -/
theorem empty_identifier_accepted (z d t rest : List Nat)
    (hz : 44 ∉ z) (hd : 44 ∉ d) (ht : 44 ∉ t)
    (hzne : (trim z).isEmpty = false) (hdne : (trim d).isEmpty = false)
    (hrest : 44 ∈ rest) (hhour : ¬extractHour (trim t) = -1) :
    (mkLine [] z d t rest).head? = some 44 ∧
      parseLine (mkLine [] z d t rest) = some (trim z, (extractHour (trim t)).toNat) := by
  refine ⟨rfl, ?_⟩
  rw [parseLine_mkLine [] z d t rest (by simp) hz hd ht rfl hzne hrest,
    if_neg (by rw [hdne]; exact Bool.false_ne_true), if_neg hhour]

theorem empty_identifier_accepted_witness :
    (mkLine [] (bytes "A") (bytes "B") (bytes "10:00") (bytes "x,y")).head? = some 44 ∧
      parseLine (mkLine [] (bytes "A") (bytes "B") (bytes "10:00") (bytes "x,y")) =
        some (trim (bytes "A"), (extractHour (trim (bytes "10:00"))).toNat) :=
  empty_identifier_accepted _ _ _ _ (by decide) (by decide) (by decide) (by decide)
    (by decide) (by decide) (by decide)

/-! ### Hour extraction (C3, C10) -/

/-- C3 counterexample: the timestamp field "-1:00" is not rejected — the
backward scan reads only the digit run immediately before the colon, so it
parses hour 1 and a full row carrying that timestamp is accepted and
counted. -/
theorem negative_hour_accepted_counterexample :
    extractHour (bytes "-1:00") = 1 ∧
      parseLine (bytes "8,A,B,-1:00,x,y") = some (bytes "A", 1) := by decide

/-- C3 amended: "00:00" and "23:59" parse to hours 0 and 23; "24:00", the
empty timestamp, and any timestamp containing no colon reject the row; but
"-1:00" is not rejected: it parses to hour 1.  A missing colon, a leading
colon, a zero-length digit run (no digit immediately preceding the first
colon), or a parsed hour above 23 each reject the row, and every
non-rejected extraction yields an hour in [0, 23]. -/
theorem extractHour_policy :
    extractHour (bytes "00:00") = 0 ∧
      extractHour (bytes "23:59") = 23 ∧
      extractHour (bytes "24:00") = -1 ∧
      extractHour (bytes "") = -1 ∧
      extractHour (bytes "-1:00") = 1 ∧
      (∀ dt : List Nat, 58 ∉ dt → extractHour dt = -1) ∧
      (∀ (dt : List Nat) (p : Nat), findChar 58 dt = some p → p = 0 →
        extractHour dt = -1) ∧
      (∀ (dt : List Nat) (p : Nat), findChar 58 dt = some p →
        isDigit (dt.getD (p - 1) 0) = false → extractHour dt = -1) ∧
      (∀ (dt : List Nat) (p : Nat), findChar 58 dt = some p →
        23 < parseDigits 0 ((dt.drop (hourScanStart dt p)).take (p - hourScanStart dt p)) →
        extractHour dt = -1) ∧
      (∀ dt : List Nat,
        extractHour dt = -1 ∨ (0 ≤ extractHour dt ∧ extractHour dt ≤ 23)) := by
  refine ⟨by decide, by decide, by decide, by decide, by decide, fun dt hdt => ?_,
    fun dt p hc hp0 => ?_, fun dt p hc hdig => ?_, fun dt p hc hgt => ?_,
    extractHour_range⟩
  · rw [extractHour, findChar_eq_none 58 dt hdt]
  · rw [extractHour, hc]
    dsimp only
    rw [if_pos hp0]
  · by_cases hp0 : p = 0
    · rw [extractHour, hc]
      dsimp only
      rw [if_pos hp0]
    · have hss : hourScanStart dt p = p := by
        rw [hourScanStart, hdig]
        rfl
      rw [extractHour, hc]
      dsimp only
      rw [if_neg hp0, hss, if_pos (le_refl p)]
  · by_cases hp0 : p = 0
    · rw [extractHour, hc]
      dsimp only
      rw [if_pos hp0]
    · rw [extractHour, hc]
      dsimp only
      rw [if_neg hp0]
      by_cases hle : p ≤ hourScanStart dt p
      · rw [if_pos hle]
      · rw [if_neg hle, if_neg (by omega :
          ¬parseDigits 0 ((dt.drop (hourScanStart dt p)).take (p - hourScanStart dt p)) ≤ 23)]

theorem extractHour_policy_witness :
    extractHour (bytes "a:30") = -1 :=
  extractHour_policy.2.2.2.2.2.2.2.1 (bytes "a:30") 1 (by decide) (by decide)

theorem isDigit_ne_colon {c : Nat} (h : isDigit c = true) : c ≠ 58 := by
  rw [isDigit, Bool.and_eq_true, decide_eq_true_eq, decide_eq_true_eq] at h
  omega

/-- C10: when three or more digits immediately precede the first colon, the
scan reads only the last two of them: the hour is the value of those two
digits, accepted iff it is at most 23, regardless of the digits before
them. -/
theorem hour_from_last_two_digits (a : List Nat) (d1 d2 d3 : Nat) (rest : List Nat)
    (ha : 58 ∉ a) (h1 : isDigit d1 = true) (h2 : isDigit d2 = true)
    (h3 : isDigit d3 = true) :
    extractHour (a ++ d1 :: d2 :: d3 :: 58 :: rest) =
      if (d2 - 48) * 10 + (d3 - 48) ≤ 23 then (((d2 - 48) * 10 + (d3 - 48) : Nat) : Int)
      else -1 := by
  have hnotin : 58 ∉ a ++ [d1, d2, d3] := by
    intro hmem
    rcases List.mem_append.1 hmem with hmem | hmem
    · exact ha hmem
    · rcases List.mem_cons.1 hmem with h | hmem
      · exact isDigit_ne_colon h1 h.symm
      · rcases List.mem_cons.1 hmem with h | hmem
        · exact isDigit_ne_colon h2 h.symm
        · rcases List.mem_cons.1 hmem with h | hmem
          · exact isDigit_ne_colon h3 h.symm
          · cases hmem
  have hc : findChar 58 (a ++ d1 :: d2 :: d3 :: 58 :: rest) = some (a.length + 3) := by
    rw [show a ++ d1 :: d2 :: d3 :: 58 :: rest = (a ++ [d1, d2, d3]) ++ 58 :: rest by simp,
      findChar_append_cons 58 _ _ hnotin]
    simp
  have hg3 : (a ++ d1 :: d2 :: d3 :: 58 :: rest).getD (a.length + 2) 0 = d3 := by
    rw [List.getD_eq_getElem?_getD, List.getElem?_append_right (by omega),
      show a.length + 2 - a.length = 2 from by omega]
    rfl
  have hg2 : (a ++ d1 :: d2 :: d3 :: 58 :: rest).getD (a.length + 1) 0 = d2 := by
    rw [List.getD_eq_getElem?_getD, List.getElem?_append_right (by omega),
      show a.length + 1 - a.length = 1 from by omega]
    rfl
  have hss : hourScanStart (a ++ d1 :: d2 :: d3 :: 58 :: rest) (a.length + 3) =
      a.length + 1 := by
    rw [hourScanStart, show a.length + 3 - 1 = a.length + 2 from by omega,
      show a.length + 3 - 2 = a.length + 1 from by omega, hg3, hg2, h2, h3,
      if_pos rfl, if_neg (by omega), if_pos rfl]
  have hdrop : (a ++ d1 :: d2 :: d3 :: 58 :: rest).drop (a.length + 1) =
      d2 :: d3 :: 58 :: rest := drop_append_cons a d1 _
  rw [extractHour, hc]
  dsimp only
  rw [if_neg (by omega : ¬a.length + 3 = 0), hss, if_neg (by omega : ¬a.length + 3 ≤ a.length + 1),
    hdrop, show a.length + 3 - (a.length + 1) = 2 from by omega]
  rw [show parseDigits 0 (List.take 2 (d2 :: d3 :: 58 :: rest)) =
    (0 * 10 + (d2 - 48)) * 10 + (d3 - 48) from rfl]
  rw [show 0 * 10 + (d2 - 48) = d2 - 48 from by omega]

theorem hour_from_last_two_digits_witness :
    extractHour (bytes "109:15") = 9 := by
  have h := hour_from_last_two_digits [] 49 48 57 (bytes "15") (by decide) (by decide)
    (by decide) (by decide)
  rw [show bytes "109:15" = [] ++ 49 :: 48 :: 57 :: 58 :: bytes "15" from by decide, h]
  decide

end RideShare
